import Mathlib

/-!
Shallow embedding of the ngcc decorator-metadata recovery core:

* `esm2015_parser.ts` — `Esm2015PackageParser.parseFile`, which enumerates the
  exports of an entry module, resolves alias re-exports, keeps class symbols,
  looks up decorators through the reflection host, and groups the resulting
  `ParsedClass` records by declaring source file (insertion-ordered `Map`).

* `esm5_host.ts` — `Esm5ReflectionHost.getClassSymbol` and
  `getConstructorDecorators`, together with the helpers `getIifeBody`,
  `getReturnIdentifier` and `getReturnStatement`, which unwrap the down-leveled
  IIFE class idiom.

TypeScript `undefined` is modelled as `Option.none`, a thrown `TypeError`
(property access on `undefined`, as produced by the `declaration.name!.text`
non-null assertion) as `Except.error JsError.typeError`.
-/

set_option autoImplicit false

namespace Ngcc

/-! ## Data model for the parser (esm2015_parser.ts) -/

/-- Opaque handle to a source file (`ts.SourceFile`); JS `Map` keys compare by
object identity, modelled by the `id` field. -/
structure SourceFile where
  id : Nat
deriving DecidableEq, Repr

/-- The part of a `ts.ClassDeclaration` that `parseFile` reads: its optional
`name` identifier (text) and the result of `getSourceFile()`. -/
structure ClassDecl where
  name : Option String
  sourceFile : SourceFile
deriving DecidableEq, Repr

/-- Opaque decorator metadata record, as returned by the reflection host. -/
structure Decorator where
  id : Nat
deriving DecidableEq, Repr

/-- `ts.SymbolFlags.Class`. -/
def SymbolFlags.Class : Nat := 32

/-- `ts.SymbolFlags.Alias`. -/
def SymbolFlags.Alias : Nat := 2097152

/-- The part of a `ts.Symbol` that `parseFile` reads: its `flags` bitmask and
its optional `valueDeclaration`. -/
structure Symbol where
  flags : Nat
  valueDeclaration : Option ClassDecl
deriving DecidableEq, Repr

/-- Modelled from the spec: `ParsedClass` (its file is not under src/; its
constructor is called as `new ParsedClass(declaration.name!.text, declaration,
decorators)`). -/
structure ParsedClass where
  name : String
  declaration : ClassDecl
  decorators : List Decorator
deriving DecidableEq, Repr

/-- Modelled from the spec: `ParsedFile` (its file is not under src/; it is
created as `new ParsedFile(file)` and populated via
`decoratedClasses.push`). -/
structure ParsedFile where
  sourceFile : SourceFile
  decoratedClasses : List ParsedClass
deriving DecidableEq, Repr

/-- The symbol-resolution snapshot: the calls `parseFile` makes on the
`ts.TypeChecker`. -/
structure Checker where
  getSymbolAtLocation : SourceFile → Option Symbol
  getExportsOfModule : Symbol → List Symbol
  getAliasedSymbol : Symbol → Symbol

/-- The reflection host as `parseFile` sees it (`NgccReflectionHost`); the
argument is `Option` because `exportSymbol.valueDeclaration` may be absent and
the source passes it through unchecked (`as ts.ClassDeclaration`). -/
structure Host where
  getDecoratorsOfDeclaration : Option ClassDecl → Option (List Decorator)

/-- A JavaScript runtime exception crossing `parseFile`'s boundary. -/
inductive JsError where
  | typeError
deriving DecidableEq, Repr

/-! ## parseFile (esm2015_parser.ts, lines 23–54) -/

/-- Line 29: `ts.SymbolFlags.Alias & exportSymbol.flags ?
this.checker.getAliasedSymbol(exportSymbol) : exportSymbol` (a nonzero bitmask
is truthy). -/
def resolveExport (checker : Checker) (exportSymbol : Symbol) : Symbol :=
  if SymbolFlags.Alias &&& exportSymbol.flags ≠ 0 then
    checker.getAliasedSymbol exportSymbol
  else exportSymbol

/-- Lines 28–33: exports of the module, alias-resolved, filtered to class
symbols, projected to their value declarations (`as ts.ClassDeclaration`). -/
def exportedClassDeclarations (checker : Checker) (moduleSymbol : Symbol) :
    List (Option ClassDecl) :=
  ((((checker.getExportsOfModule moduleSymbol).map (resolveExport checker)).filter
      (fun exportSymbol => exportSymbol.flags &&& SymbolFlags.Class ≠ 0)).map
    (fun exportSymbol => exportSymbol.valueDeclaration))

/-- Lines 36–42: the `.map` body. For each declaration, ask the host for
decorators; a present (truthy) result — even an empty array — builds
`new ParsedClass(declaration.name!.text, declaration, decorators)`, where the
non-null assertion throws a `TypeError` when `declaration` or its `name` is
absent; an absent result maps to `undefined`. -/
def mapDecoratedClasses (host : Host) :
    List (Option ClassDecl) → Except JsError (List (Option ParsedClass))
  | [] => .ok []
  | declaration :: rest =>
    match host.getDecoratorsOfDeclaration declaration, declaration with
    | some decorators, some ⟨some text, sf⟩ =>
      (mapDecoratedClasses host rest).map
        (fun tail => some ⟨text, ⟨some text, sf⟩, decorators⟩ :: tail)
    | some _, some ⟨none, _⟩ => .error .typeError
    | some _, none => .error .typeError
    | none, _ => (mapDecoratedClasses host rest).map (fun tail => none :: tail)

/-- Lines 45–50 (one `forEach` step): group a decorated class into the
insertion-ordered `Map<ts.SourceFile, ParsedFile>`: create the `ParsedFile`
when the file is first seen, then push the class onto its
`decoratedClasses`. -/
def addToGroup (acc : List ParsedFile) (clazz : ParsedClass) : List ParsedFile :=
  let file := clazz.declaration.sourceFile
  if file ∈ acc.map (fun pf => pf.sourceFile) then
    acc.map (fun pf =>
      if pf.sourceFile = file then
        { pf with decoratedClasses := pf.decoratedClasses ++ [clazz] }
      else pf)
  else
    acc ++ [{ sourceFile := file, decoratedClasses := [clazz] }]

/-- Lines 45–53: the whole `forEach` plus `Array.from(map.values())`; a JS
`Map` iterates values in key-insertion order. -/
def groupByFile (classes : List ParsedClass) : List ParsedFile :=
  classes.foldl addToGroup []

/-- Lines 24–43: everything before the grouping `forEach` — the discovered
decorated classes in export-enumeration order (with the `.filter(decoratedClass
=> decoratedClass)` truthiness filter applied). -/
def discoveredClasses (checker : Checker) (host : Host)
    (entryPoint : SourceFile) : Except JsError (List ParsedClass) :=
  match checker.getSymbolAtLocation entryPoint with
  | none => .ok []
  | some moduleSymbol =>
    (mapDecoratedClasses host (exportedClassDeclarations checker moduleSymbol)).map
      (fun mapped => mapped.filterMap id)

/-- `Esm2015PackageParser.parseFile` (lines 23–54): discovery pipeline followed
by grouping; when the module symbol is unresolvable the `Map` stays empty and
the empty list is returned. -/
def parseFile (checker : Checker) (host : Host) (entryPoint : SourceFile) :
    Except JsError (List ParsedFile) :=
  (discoveredClasses checker host entryPoint).map groupByFile

/-! ## ESM5 syntax model (esm5_host.ts) -/

mutual

/-- The expression forms the ESM5 host distinguishes (`ts.Expression`). -/
inductive Expression where
  | identExpr (name : String)
  | paren (expression : Expression)
  | call (callee : Expression) (args : List Expression)
  | functionExpr (body : List Statement)
  | arrowFunction (body : List Statement)
  | arrayLit (elements : List Expression)
  | objectLit (properties : List (String × Expression))
  | otherExpr (id : Nat)

/-- The statement forms the ESM5 host distinguishes; a `ts.Block` is its list
of statements. -/
inductive Statement where
  | returnStmt (expression : Option Expression)
  | ifStmt (cond : Expression) (thenBranch elseBranch : List Statement)
  | functionDeclStmt (name : String) (body : List Statement)
  | exprStmt (expression : Expression)
  | otherStmt (id : Nat)

end

/-- `ts.isIdentifier`. -/
def Expression.isIdent : Expression → Bool
  | .identExpr _ => true
  | _ => false

/-- `ts.isObjectLiteralExpression`. -/
def Expression.isObjectLiteralExpression : Expression → Bool
  | .objectLit _ => true
  | _ => false

/-- `ts.isReturnStatement`. -/
def Statement.isReturnStatement : Statement → Bool
  | .returnStmt _ => true
  | _ => false

/-- A `ts.VariableDeclaration`: binding name plus optional initializer. -/
structure VariableDeclaration where
  name : String
  init : Option Expression

/-- A `ts.Declaration` as `getClassSymbol` inspects it. -/
inductive Declaration where
  | varDecl (decl : VariableDeclaration)
  | otherDecl (id : Nat)

/-- Symbol of a static property assignment; carries the assigned value
expression when one exists. -/
structure Esm5PropSymbol where
  value : Option Expression

/-- The part of a `ts.Symbol` the ESM5 host reads: `exports` is the optional
static-member table (`Map<ts.__String, ts.Symbol>`, insertion-keyed here as an
association list). -/
structure Esm5Symbol where
  name : String
  exports : Option (List (String × Esm5PropSymbol))

/-- Modelled from the spec: `CONSTRUCTOR_PARAMS` is imported from the base-host
file (not under src/); the spec names the static method `ctorParameters`. -/
def CONSTRUCTOR_PARAMS : String := "ctorParameters"

/-- Modelled from the spec: `getPropertyValueFromSymbol` is imported from the
base-host file (not under src/); per the spec the host "reads a static property
that holds a function", i.e. this returns the expression assigned to the static
property the symbol stands for, when there is one. -/
def getPropertyValueFromSymbol (propSymbol : Esm5PropSymbol) : Option Expression :=
  propSymbol.value

/-- Modelled from the spec: `reflectObjectLiteral` is imported from the
external ngtsc reflector; `reflectObjectLiteral(node) → mapping<name,
expression>` turns an object literal into a name → expression map. -/
def reflectObjectLiteral : Expression → List (String × Expression)
  | .objectLit properties => properties
  | _ => []

/-- The one `ts.TypeChecker` call `getClassSymbol` makes. -/
structure Esm5Checker where
  getSymbolAtLocation : Expression → Option Esm5Symbol

/-- `getReturnStatement` (lines 109–111):
`body.statements.find(statement => ts.isReturnStatement(statement))`. -/
def getReturnStatement (body : List Statement) : Option Statement :=
  body.find? Statement.isReturnStatement

/-- `getReturnIdentifier` (lines 102–107): the first return statement's
expression, provided it is a bare identifier. -/
def getReturnIdentifier (body : List Statement) : Option Expression :=
  match getReturnStatement body with
  | some (.returnStmt (some expr)) => if expr.isIdent then some expr else none
  | _ => none

/-- `getIifeBody` (lines 93–100): the initializer must be a parenthesized call
whose callee is a function expression; yield that function's body. -/
def getIifeBody (declaration : VariableDeclaration) : Option (List Statement) :=
  match declaration.init with
  | some (.paren inner) =>
    match inner with
    | .call (.functionExpr body) _ => some body
    | _ => none
  | _ => none

/-- `Esm5ReflectionHost.getClassSymbol` (lines 39–50): unwrap the IIFE, find
the returned identifier, resolve it through the checker; any shape mismatch
yields `none`. -/
def getClassSymbol (checker : Esm5Checker) (declaration : Declaration) :
    Option Esm5Symbol :=
  match declaration with
  | .varDecl v =>
    match getIifeBody v with
    | some iifeBody =>
      match getReturnIdentifier iifeBody with
      | some innerClassIdentifier =>
        checker.getSymbolAtLocation innerClassIdentifier
      | none => none
    | none => none
  | .otherDecl _ => none

/-- `Esm5ReflectionHost.getConstructorDecorators` (lines 78–89): read the
`ctorParameters` static property; require a function expression whose first
immediate return statement returns an array literal; reflect object-literal
elements, `null` otherwise. -/
def getConstructorDecorators (classSymbol : Esm5Symbol) :
    List (Option (List (String × Expression))) :=
  match classSymbol.exports with
  | some exps =>
    match exps.lookup CONSTRUCTOR_PARAMS with
    | some ctorParamsSymbol =>
      match getPropertyValueFromSymbol ctorParamsSymbol with
      | some paramDecoratorsProperty =>
        match paramDecoratorsProperty with
        | .functionExpr body =>
          match getReturnStatement body with
          | some (.returnStmt (some (.arrayLit elements))) =>
            elements.map (fun element =>
              if element.isObjectLiteralExpression then
                some (reflectObjectLiteral element)
              else none)
          | _ => []
        | _ => []
      | none => []
    | none => []
  | none => []

/-! ## Auxiliary definitions used by the statements -/

/-- First-seen order: keep the first occurrence of each file, in order. Used to
state the ordering contract of `parseFile`. -/
def firstSeenOrder (files : List SourceFile) : List SourceFile :=
  files.foldl (fun acc f => if f ∈ acc then acc else acc ++ [f]) []

/-- The access path `classSymbol.exports → ctorParameters member →
getPropertyValueFromSymbol`, as one optional value; used to state the
malformed-shape contract of `getConstructorDecorators`. -/
def ctorParamsPropertyValue (classSymbol : Esm5Symbol) : Option Expression :=
  classSymbol.exports.bind (fun exps =>
    (exps.lookup CONSTRUCTOR_PARAMS).bind getPropertyValueFromSymbol)

mutual

/-- A return statement occurs in this statement, possibly nested inside
conditional branches (but not inside a nested function, whose returns belong
to that function). -/
def stmtHasNestedReturn : Statement → Bool
  | .returnStmt _ => true
  | .ifStmt _ thenBranch elseBranch =>
    stmtsHaveNestedReturn thenBranch || stmtsHaveNestedReturn elseBranch
  | _ => false

/-- Some statement of the list contains a (possibly nested) return. -/
def stmtsHaveNestedReturn : List Statement → Bool
  | [] => false
  | s :: rest => stmtHasNestedReturn s || stmtsHaveNestedReturn rest

end

/-! ## Concrete fixtures (used by witnesses and counterexamples) -/

/-- The entry-point source file. -/
def fileEntry : SourceFile := ⟨0⟩

/-- A library source file. -/
def fileA : SourceFile := ⟨1⟩

/-- A named class declaration `A` living in `fileA`. -/
def declA : ClassDecl := ⟨some "A", fileA⟩

/-- An unnamed (`export default class { }`-style) class declaration. -/
def declNoName : ClassDecl := ⟨none, fileA⟩

/-- The export symbol of `declA`, flagged as a class. -/
def classSymA : Symbol := ⟨SymbolFlags.Class, some declA⟩

/-- The export symbol of `declNoName`, flagged as a class. -/
def classSymNoName : Symbol := ⟨SymbolFlags.Class, some declNoName⟩

/-- An alias export symbol (a re-export). -/
def aliasSymA : Symbol := ⟨SymbolFlags.Alias, none⟩

/-- The module symbol of the entry point. -/
def moduleSym : Symbol := ⟨0, none⟩

/-- A snapshot whose entry module exports `classSymA` and resolves the alias
`aliasSymA` to `classSymA`. -/
def checkerA : Checker :=
  ⟨fun _ => some moduleSym, fun _ => [classSymA],
   fun s => if s = aliasSymA then classSymA else s⟩

/-- A snapshot whose entry module exports the unnamed class. -/
def checkerNoName : Checker :=
  ⟨fun _ => some moduleSym, fun _ => [classSymNoName], fun s => s⟩

/-- A host that reports an empty — but present — decorator array for every
declaration (`X.decorators = []` emit). -/
def hostEmptyArr : Host := ⟨fun _ => some []⟩

/-- A host that reports one decorator for `declA` and absence otherwise. -/
def hostOne : Host := ⟨fun d => if d = some declA then some [⟨7⟩] else none⟩

/-- A host that reports a decorator for every declaration, even an absent or
unnamed one. -/
def hostAll : Host := ⟨fun _ => some [⟨9⟩]⟩

/-- The statements of the example IIFE body:
`function(){ function Foo(){} Foo.decorators = [...]; return Foo; }`. -/
def iifeBodyFoo : List Statement :=
  [.functionDeclStmt "Foo" [], .exprStmt (.otherExpr 0),
   .returnStmt (some (.identExpr "Foo"))]

/-- The symbol of the inner `Foo` function (distinct from any outer binding
symbol). -/
def innerFooSym : Esm5Symbol := ⟨"Foo (inner function)", none⟩

/-- An ESM5 checker resolving the identifier `Foo` to the inner function's
symbol. -/
def checkerFoo : Esm5Checker :=
  ⟨fun e => match e with
    | .identExpr "Foo" => some innerFooSym
    | _ => none⟩

/-- `{ type: Bar }`. -/
def elemBar : Expression := .objectLit [("type", .identExpr "Bar")]

/-- `{ type: undefined, decorators: [{ type: Inject, args: [TOKEN] }] }`. -/
def elemInject : Expression :=
  .objectLit
    [("type", .identExpr "undefined"),
     ("decorators", .arrayLit
        [.objectLit [("type", .identExpr "Inject"),
                     ("args", .arrayLit [.identExpr "TOKEN"])]])]

/-- Body of `function(){ return [{type: Bar}, {type: undefined, decorators:
[...]}]; }`. -/
def ctorParamsBody : List Statement :=
  [.returnStmt (some (.arrayLit [elemBar, elemInject]))]

/-- A class symbol whose `ctorParameters` static property holds the example
function expression. -/
def fooSym5 : Esm5Symbol :=
  ⟨"Foo", some [(CONSTRUCTOR_PARAMS, ⟨some (.functionExpr ctorParamsBody)⟩)]⟩

/-- A class symbol whose `ctorParameters` is an arrow function (malformed for
the ESM5 convention). -/
def fooSymArrow : Esm5Symbol :=
  ⟨"Foo", some [(CONSTRUCTOR_PARAMS,
    ⟨some (.arrowFunction [.returnStmt (some (.arrayLit []))])⟩)]⟩

/-- A function body whose only return statement sits inside a conditional:
`function(){ if (c) { return Foo; } }`. -/
def nestedReturnBody : List Statement :=
  [.ifStmt (.identExpr "c") [.returnStmt (some (.identExpr "Foo"))] []]

/-- A class symbol whose `ctorParameters` function hides its return inside a
conditional. -/
def fooSymNested : Esm5Symbol :=
  ⟨"Foo", some [(CONSTRUCTOR_PARAMS, ⟨some (.functionExpr nestedReturnBody)⟩)]⟩

/-! ## Helper lemmas about the ESM5 host -/

theorem getIifeBody_eq_some {v : VariableDeclaration} {body : List Statement}
    (h : getIifeBody v = some body) :
    ∃ args, v.init = some (.paren (.call (.functionExpr body) args)) := by
  unfold getIifeBody at h
  split at h
  · split at h
    · rename_i body' args heq
      obtain rfl : body' = body := Option.some.inj h
      exact ⟨args, heq⟩
    · exact Option.noConfusion h
  · exact Option.noConfusion h

theorem getReturnIdentifier_eq_some {body : List Statement} {e : Expression}
    (h : getReturnIdentifier body = some e) :
    (∃ nm, e = .identExpr nm)
    ∧ getReturnStatement body = some (.returnStmt (some e)) := by
  unfold getReturnIdentifier at h
  split at h
  · rename_i expr heq
    split at h
    · rename_i hid
      obtain rfl : expr = e := Option.some.inj h
      refine ⟨?_, heq⟩
      cases expr with
      | identExpr nm => exact ⟨nm, rfl⟩
      | paren a => exact Bool.noConfusion hid
      | call a b => exact Bool.noConfusion hid
      | functionExpr a => exact Bool.noConfusion hid
      | arrowFunction a => exact Bool.noConfusion hid
      | arrayLit a => exact Bool.noConfusion hid
      | objectLit a => exact Bool.noConfusion hid
      | otherExpr a => exact Bool.noConfusion hid
    · exact Option.noConfusion h
  · exact Option.noConfusion h

/-! ## Claim theorems: ESM5 host -/

/-- C2: for every declaration given to the IIFE-variant `getClassSymbol`, if
the declaration is a variable binding whose initializer is a parenthesized
call to a function expression and the first return statement of that
function's body returns a bare identifier, the result is the symbol obtained
by resolving that identifier; if any of these shape conditions fails at any
step, the result is `none` (and, the function being total, no error is
raised). -/
theorem getClassSymbol_iife_contract (checker : Esm5Checker)
    (declaration : Declaration) :
    (∀ (name idName : String) (body : List Statement) (args : List Expression),
        declaration
          = .varDecl ⟨name, some (.paren (.call (.functionExpr body) args))⟩ →
        getReturnStatement body
          = some (.returnStmt (some (.identExpr idName))) →
        getClassSymbol checker declaration
          = checker.getSymbolAtLocation (.identExpr idName))
    ∧ ((¬ ∃ (name idName : String) (body : List Statement)
            (args : List Expression),
          declaration
            = .varDecl ⟨name, some (.paren (.call (.functionExpr body) args))⟩
          ∧ getReturnStatement body
            = some (.returnStmt (some (.identExpr idName)))) →
        getClassSymbol checker declaration = none) := by
  constructor
  · rintro name idName body args rfl hret
    simp [getClassSymbol, getIifeBody, getReturnIdentifier, hret,
      Expression.isIdent]
  · intro hshape
    cases declaration with
    | otherDecl i => rfl
    | varDecl v =>
      show (match getIifeBody v with
        | some iifeBody =>
          match getReturnIdentifier iifeBody with
          | some innerClassIdentifier =>
            checker.getSymbolAtLocation innerClassIdentifier
          | none => none
        | none => none) = none
      cases hbody : getIifeBody v with
      | none => rfl
      | some body =>
        cases hret : getReturnIdentifier body with
        | none => simp [hret]
        | some e =>
          exfalso
          apply hshape
          obtain ⟨args, hinit⟩ := getIifeBody_eq_some hbody
          obtain ⟨⟨nm, rfl⟩, hstmt⟩ := getReturnIdentifier_eq_some hret
          exact ⟨v.name, nm, body, args, by rw [← hinit], hstmt⟩

/-- C2 witness: on the IIFE `var Foo = (function(){ function Foo(){} ...;
return Foo; })()`, `getClassSymbol` resolves to the inner `Foo` function's
symbol. -/
theorem getClassSymbol_iife_contract_witness :
    getClassSymbol checkerFoo
        (.varDecl ⟨"Foo", some (.paren (.call (.functionExpr iifeBodyFoo) []))⟩)
      = checkerFoo.getSymbolAtLocation (.identExpr "Foo") :=
  (getClassSymbol_iife_contract checkerFoo _).1 "Foo" "Foo" iifeBodyFoo [] rfl
    rfl

/-- C3: for every class symbol whose `ctorParameters` static property holds a
function expression whose (first immediate) return statement returns an array
literal, `getConstructorDecorators` returns one entry per array element in
element order: object-literal elements are reflected via the object-literal
reflector, every other element yields `none` at its position, so the result
is positionally aligned with the array. -/
theorem getConstructorDecorators_elements (name : String)
    (exps : List (String × Esm5PropSymbol)) (body : List Statement)
    (elements : List Expression)
    (hlookup : exps.lookup CONSTRUCTOR_PARAMS
      = some ⟨some (.functionExpr body)⟩)
    (hret : getReturnStatement body
      = some (.returnStmt (some (.arrayLit elements)))) :
    (getConstructorDecorators ⟨name, some exps⟩).length = elements.length
    ∧ ∀ i : Nat,
      (getConstructorDecorators ⟨name, some exps⟩)[i]?
        = (elements[i]?).map (fun element =>
            if element.isObjectLiteralExpression then
              some (reflectObjectLiteral element)
            else none) := by
  have hval : getConstructorDecorators ⟨name, some exps⟩
      = elements.map (fun element =>
          if element.isObjectLiteralExpression then
            some (reflectObjectLiteral element)
          else none) := by
    simp [getConstructorDecorators, hlookup, getPropertyValueFromSymbol, hret]
  rw [hval]
  exact ⟨List.length_map _ _, fun i => List.getElem?_map _ _ i⟩

/-- C3 witness: for `Foo.ctorParameters = function(){ return [{type: Bar},
{type: undefined, decorators: [{type: Inject, args: [TOKEN]}]}]; }` the result
has two positionally aligned entries and the second carries the reflected
`Inject` metadata. -/
theorem getConstructorDecorators_elements_witness :
    (getConstructorDecorators fooSym5).length = 2
    ∧ (getConstructorDecorators fooSym5)[1]?
        = some (some (reflectObjectLiteral elemInject)) := by
  have h := getConstructorDecorators_elements "Foo"
    [(CONSTRUCTOR_PARAMS, ⟨some (.functionExpr ctorParamsBody)⟩)] ctorParamsBody
    [elemBar, elemInject] rfl rfl
  exact ⟨h.1, (h.2 1).trans rfl⟩

/-- C5: for every class symbol whose `ctorParameters` access path does not
produce a function expression whose first immediate return statement returns
an array literal (no `exports`, no `ctorParameters` member, arrow function,
missing or malformed return, ...), `getConstructorDecorators` returns the
empty sequence (and, the function being total, raises no failure). -/
theorem getConstructorDecorators_malformed (classSymbol : Esm5Symbol)
    (h : ∀ body : List Statement,
      ctorParamsPropertyValue classSymbol = some (.functionExpr body) →
      ∀ elements : List Expression,
        getReturnStatement body
          ≠ some (.returnStmt (some (.arrayLit elements)))) :
    getConstructorDecorators classSymbol = [] := by
  unfold getConstructorDecorators
  split
  · rename_i exps hexps
    split
    · rename_i ctorSym hlookup
      split
      · rename_i prop hprop
        split
        · rename_i body
          split
          · rename_i elements hret
            exact absurd hret
              (h body (by simp [ctorParamsPropertyValue, hexps, hlookup, hprop])
                elements)
          · rfl
        · rfl
      · rfl
    · rfl
  · rfl

/-- C5 witness: `ctorParameters` assigned an arrow function yields the empty
sequence. -/
theorem getConstructorDecorators_malformed_witness :
    getConstructorDecorators fooSymArrow = [] :=
  getConstructorDecorators_malformed fooSymArrow
    (fun _ h => Expression.noConfusion (Option.some.inj h))

/-- C10: return-statement lookup considers only the immediate statements of a
function body: when no immediate statement of the IIFE body is a return
statement but a return statement exists nested deeper (e.g. inside a
conditional), `getClassSymbol` returns `none` and `getConstructorDecorators`
returns the empty sequence. -/
theorem return_lookup_shallow (checker : Esm5Checker) (name : String)
    (body : List Statement) (args : List Expression)
    (himm : body.all (fun s => ! s.isReturnStatement) = true)
    (_hdeep : stmtsHaveNestedReturn body = true) :
    getClassSymbol checker
        (.varDecl ⟨name, some (.paren (.call (.functionExpr body) args))⟩)
      = none
    ∧ ∀ (symName : String) (exps : List (String × Esm5PropSymbol)),
        exps.lookup CONSTRUCTOR_PARAMS = some ⟨some (.functionExpr body)⟩ →
        getConstructorDecorators ⟨symName, some exps⟩ = [] := by
  have hnone : getReturnStatement body = none := by
    rw [getReturnStatement, List.find?_eq_none]
    intro s hs
    have := List.all_eq_true.mp himm s hs
    simp only [Bool.not_eq_true'] at this
    simp [this]
  constructor
  · simp [getClassSymbol, getIifeBody, getReturnIdentifier, hnone]
  · intro symName exps hlookup
    simp [getConstructorDecorators, hlookup, getPropertyValueFromSymbol, hnone]

/-- C10 witness: `function(){ if (c) { return Foo; } }` — a return exists only
inside the conditional, and both operations fail closed. -/
theorem return_lookup_shallow_witness :
    getClassSymbol checkerFoo
        (.varDecl ⟨"Foo",
          some (.paren (.call (.functionExpr nestedReturnBody) []))⟩)
      = none
    ∧ getConstructorDecorators fooSymNested = [] := by
  have h := return_lookup_shallow checkerFoo "Foo" nestedReturnBody [] rfl rfl
  exact ⟨h.1, h.2 "Foo" _ rfl⟩

/-! ## Helper lemmas about the parser -/

theorem except_map_eq_ok {ε α β : Type} (f : α → β) (e : Except ε α) (b : β) :
    e.map f = .ok b ↔ ∃ a, e = .ok a ∧ b = f a := by
  cases e with
  | error err =>
    simp only [Except.map]
    constructor
    · intro h; exact Except.noConfusion h
    · rintro ⟨a, ha, _⟩; exact Except.noConfusion ha
  | ok v =>
    simp only [Except.map]
    constructor
    · intro h; exact ⟨v, rfl, (Except.ok.inj h).symm⟩
    · rintro ⟨a, ha, rfl⟩; rw [Except.ok.inj ha]

theorem parseFile_ok_iff (checker : Checker) (host : Host)
    (entryPoint : SourceFile) (files : List ParsedFile) :
    parseFile checker host entryPoint = .ok files ↔
      ∃ cs, discoveredClasses checker host entryPoint = .ok cs
        ∧ files = groupByFile cs := by
  rw [parseFile]
  exact except_map_eq_ok _ _ _

theorem mapDecoratedClasses_ok_mem (host : Host) :
    ∀ (decls : List (Option ClassDecl)) (res : List (Option ParsedClass)),
      mapDecoratedClasses host decls = .ok res →
      ∀ pc : ParsedClass, some pc ∈ res →
        host.getDecoratorsOfDeclaration (some pc.declaration)
          = some pc.decorators := by
  intro decls
  induction decls with
  | nil =>
    intro res h pc hmem
    obtain rfl : ([] : List (Option ParsedClass)) = res := Except.ok.inj h
    simp at hmem
  | cons d rest ih =>
    intro res h pc hmem
    unfold mapDecoratedClasses at h
    split at h
    · obtain ⟨tail, htail, rfl⟩ := (except_map_eq_ok _ _ _).mp h
      rcases List.mem_cons.mp hmem with heq | hmemtail
      · obtain rfl := Option.some.inj heq
        assumption
      · exact ih tail htail pc hmemtail
    · exact Except.noConfusion h
    · exact Except.noConfusion h
    · obtain ⟨tail, htail, rfl⟩ := (except_map_eq_ok _ _ _).mp h
      rcases List.mem_cons.mp hmem with heq | hmemtail
      · exact Option.noConfusion heq
      · exact ih tail htail pc hmemtail

theorem mapDecoratedClasses_total (host : Host) :
    ∀ decls : List (Option ClassDecl),
      (∀ od ∈ decls, (host.getDecoratorsOfDeclaration od).isSome = true →
        ∃ d nm, od = some d ∧ d.name = some nm) →
      ∃ res, mapDecoratedClasses host decls = .ok res := by
  intro decls
  induction decls with
  | nil => exact fun _ => ⟨[], rfl⟩
  | cons d rest ih =>
    intro hyp
    obtain ⟨res, hres⟩ := ih (fun od hod => hyp od (List.mem_cons_of_mem _ hod))
    rcases hd : host.getDecoratorsOfDeclaration d with _ | decorators
    · refine ⟨none :: res, ?_⟩
      unfold mapDecoratedClasses
      rw [hd, hres]
      rcases d with _ | ⟨_ | _, _⟩ <;> exact rfl
    · obtain ⟨dd, nm, hdeq, hnm⟩ :=
        hyp d (List.mem_cons_self _ _) (by rw [hd]; rfl)
      obtain ⟨ddname, sf⟩ := dd
      obtain rfl : ddname = some nm := hnm
      subst hdeq
      refine ⟨some ⟨nm, ⟨some nm, sf⟩, decorators⟩ :: res, ?_⟩
      unfold mapDecoratedClasses
      rw [hd, hres]
      exact rfl

theorem addToGroup_inv (processed : List ParsedClass) (acc : List ParsedFile)
    (c : ParsedClass)
    (h1 : acc.map (fun pf => pf.sourceFile)
      = firstSeenOrder (processed.map (fun x => x.declaration.sourceFile)))
    (h2 : ∀ pf ∈ acc, pf.decoratedClasses
      = processed.filter
          (fun x => decide (x.declaration.sourceFile = pf.sourceFile)))
    (h3 : ∀ x ∈ processed, x.declaration.sourceFile
      ∈ acc.map (fun pf => pf.sourceFile)) :
    (addToGroup acc c).map (fun pf => pf.sourceFile)
        = firstSeenOrder
            ((processed ++ [c]).map (fun x => x.declaration.sourceFile))
    ∧ (∀ pf ∈ addToGroup acc c, pf.decoratedClasses
        = (processed ++ [c]).filter
            (fun x => decide (x.declaration.sourceFile = pf.sourceFile)))
    ∧ ∀ x ∈ processed ++ [c], x.declaration.sourceFile
        ∈ (addToGroup acc c).map (fun pf => pf.sourceFile) := by
  have hseen : firstSeenOrder
      ((processed ++ [c]).map (fun x => x.declaration.sourceFile))
      = if c.declaration.sourceFile ∈ acc.map (fun pf => pf.sourceFile)
        then acc.map (fun pf => pf.sourceFile)
        else acc.map (fun pf => pf.sourceFile) ++ [c.declaration.sourceFile] := by
    rw [firstSeenOrder, List.map_append, List.foldl_append]
    rw [show (processed.map (fun x => x.declaration.sourceFile)).foldl
        (fun acc f => if f ∈ acc then acc else acc ++ [f]) []
      = firstSeenOrder (processed.map (fun x => x.declaration.sourceFile))
      from rfl]
    rw [← h1]
    simp [List.foldl_cons, List.foldl_nil]
  by_cases hmem : c.declaration.sourceFile ∈ acc.map (fun pf => pf.sourceFile)
  · have hadd : addToGroup acc c = acc.map (fun pf =>
        if pf.sourceFile = c.declaration.sourceFile then
          { pf with decoratedClasses := pf.decoratedClasses ++ [c] }
        else pf) := by
      simp [addToGroup, hmem]
    have hkeys : (addToGroup acc c).map (fun pf => pf.sourceFile)
        = acc.map (fun pf => pf.sourceFile) := by
      rw [hadd, List.map_map]
      apply List.map_congr_left
      intro pf _
      by_cases h : pf.sourceFile = c.declaration.sourceFile <;>
        simp [Function.comp, h]
    refine ⟨?_, ?_, ?_⟩
    · rw [hkeys, hseen, if_pos hmem]
    · intro pf' hpf'
      rw [hadd] at hpf'
      obtain ⟨pf, hpf, rfl⟩ := List.mem_map.mp hpf'
      by_cases h : pf.sourceFile = c.declaration.sourceFile
      · simp only [if_pos h]
        rw [List.filter_append, h2 pf hpf]
        simp [h.symm]
      · simp only [if_neg h]
        rw [List.filter_append, h2 pf hpf]
        have : ¬ c.declaration.sourceFile = pf.sourceFile := fun hh => h hh.symm
        simp [this]
    · intro x hx
      rw [hkeys]
      rcases List.mem_append.mp hx with hx | hx
      · exact h3 x hx
      · rw [List.mem_singleton] at hx; subst hx; exact hmem
  · have hadd : addToGroup acc c
        = acc ++ [⟨c.declaration.sourceFile, [c]⟩] := by
      simp [addToGroup, hmem]
    have hkeys : (addToGroup acc c).map (fun pf => pf.sourceFile)
        = acc.map (fun pf => pf.sourceFile) ++ [c.declaration.sourceFile] := by
      rw [hadd, List.map_append]; rfl
    refine ⟨?_, ?_, ?_⟩
    · rw [hkeys, hseen, if_neg hmem]
    · intro pf' hpf'
      rw [hadd] at hpf'
      rcases List.mem_append.mp hpf' with hpf | hpf
      · rw [List.filter_append, h2 pf' hpf]
        have hne : ¬ c.declaration.sourceFile = pf'.sourceFile := fun hh =>
          hmem (hh ▸ List.mem_map_of_mem (fun pf => pf.sourceFile) hpf)
        simp [hne]
      · rw [List.mem_singleton] at hpf; subst hpf
        have hnil : processed.filter
            (fun x => decide (x.declaration.sourceFile
              = c.declaration.sourceFile)) = [] := by
          apply List.filter_eq_nil_iff.mpr
          intro x hx
          simp only [decide_eq_true_eq]
          exact fun hh => hmem (hh ▸ h3 x hx)
        rw [List.filter_append, hnil]
        simp
    · intro x hx
      rw [hkeys]
      rcases List.mem_append.mp hx with hx | hx
      · exact List.mem_append_left _ (h3 x hx)
      · rw [List.mem_singleton] at hx; subst hx
        exact List.mem_append_right _ (List.mem_singleton.mpr rfl)

theorem foldl_addToGroup_inv (cs : List ParsedClass) :
    ∀ (processed : List ParsedClass) (acc : List ParsedFile),
      acc.map (fun pf => pf.sourceFile)
          = firstSeenOrder (processed.map (fun x => x.declaration.sourceFile)) →
      (∀ pf ∈ acc, pf.decoratedClasses
          = processed.filter
              (fun x => decide (x.declaration.sourceFile = pf.sourceFile))) →
      (∀ x ∈ processed, x.declaration.sourceFile
          ∈ acc.map (fun pf => pf.sourceFile)) →
      ((cs.foldl addToGroup acc).map (fun pf => pf.sourceFile)
          = firstSeenOrder
              ((processed ++ cs).map (fun x => x.declaration.sourceFile))
        ∧ (∀ pf ∈ cs.foldl addToGroup acc, pf.decoratedClasses
            = (processed ++ cs).filter
                (fun x => decide (x.declaration.sourceFile = pf.sourceFile)))
        ∧ ∀ x ∈ processed ++ cs, x.declaration.sourceFile
            ∈ (cs.foldl addToGroup acc).map (fun pf => pf.sourceFile)) := by
  induction cs with
  | nil =>
    intro processed acc h1 h2 h3
    simp only [List.foldl_nil, List.append_nil]
    exact ⟨h1, h2, h3⟩
  | cons c cs ih =>
    intro processed acc h1 h2 h3
    obtain ⟨g1, g2, g3⟩ := addToGroup_inv processed acc c h1 h2 h3
    have := ih (processed ++ [c]) (addToGroup acc c) g1 g2 g3
    simpa only [List.append_assoc, List.singleton_append, List.foldl_cons]
      using this

theorem groupByFile_spec (cs : List ParsedClass) :
    (groupByFile cs).map (fun pf => pf.sourceFile)
        = firstSeenOrder (cs.map (fun x => x.declaration.sourceFile))
    ∧ ∀ pf ∈ groupByFile cs, pf.decoratedClasses
        = cs.filter
            (fun x => decide (x.declaration.sourceFile = pf.sourceFile)) := by
  obtain ⟨g1, g2, _⟩ := foldl_addToGroup_inv cs [] []
    (by simp [firstSeenOrder]) (by simp) (by simp)
  exact ⟨by simpa [groupByFile] using g1, by simpa [groupByFile] using g2⟩

theorem addToGroup_ne_nil (acc : List ParsedFile) (c : ParsedClass)
    (h : ∀ pf ∈ acc, pf.decoratedClasses ≠ []) :
    ∀ pf ∈ addToGroup acc c, pf.decoratedClasses ≠ [] := by
  intro pf' hpf'
  simp only [addToGroup] at hpf'
  split at hpf'
  · obtain ⟨pf, hpf, rfl⟩ := List.mem_map.mp hpf'
    by_cases hh : pf.sourceFile = c.declaration.sourceFile
    · simp only [if_pos hh]
      simp
    · simp only [if_neg hh]
      exact h pf hpf
  · rcases List.mem_append.mp hpf' with hpf | hpf
    · exact h pf' hpf
    · rw [List.mem_singleton] at hpf; subst hpf; simp

theorem foldl_addToGroup_ne_nil (cs : List ParsedClass) :
    ∀ acc : List ParsedFile, (∀ pf ∈ acc, pf.decoratedClasses ≠ []) →
      ∀ pf ∈ cs.foldl addToGroup acc, pf.decoratedClasses ≠ [] := by
  induction cs with
  | nil => intro acc h; simpa using h
  | cons c cs ih => intro acc h; exact ih _ (addToGroup_ne_nil acc c h)

theorem parseFile_congr (ch1 ch2 : Checker) (host : Host)
    (entryPoint : SourceFile)
    (hs : ch1.getSymbolAtLocation entryPoint
      = ch2.getSymbolAtLocation entryPoint)
    (he : ∀ ms, exportedClassDeclarations ch1 ms
      = exportedClassDeclarations ch2 ms) :
    parseFile ch1 host entryPoint = parseFile ch2 host entryPoint := by
  rw [parseFile, parseFile, discoveredClasses, discoveredClasses, hs]
  cases ch2.getSymbolAtLocation entryPoint with
  | none => rfl
  | some ms =>
    show Except.map groupByFile
        ((mapDecoratedClasses host (exportedClassDeclarations ch1 ms)).map
          (fun mapped => mapped.filterMap id))
      = Except.map groupByFile
        ((mapDecoratedClasses host (exportedClassDeclarations ch2 ms)).map
          (fun mapped => mapped.filterMap id))
    rw [he ms]

/-! ## Claim theorems: parser -/

/-- C1 counterexample: the claim "a class whose `getDecoratorsOfDeclaration`
result is empty or absent is discarded" is false for the EMPTY case. `parseFile`
keeps a class whose host result is a present-but-empty array (`some []`),
because line 38 tests JS truthiness (`if (decorators)`) and an empty array is
truthy: the class `A` appears in the returned `ParsedFile` with zero
decorators. -/
theorem empty_decorator_array_kept :
    hostEmptyArr.getDecoratorsOfDeclaration (some declA) = some []
    ∧ parseFile checkerA hostEmptyArr fileEntry
        = .ok [⟨fileA, [⟨"A", declA, []⟩]⟩] :=
  ⟨rfl, rfl⟩

/-- C1 (amended): for every entry module, every exported class whose
`getDecoratorsOfDeclaration` result is ABSENT (`undefined`) is discarded by
`parseFile`: every `ParsedClass` of every returned `ParsedFile` carries a
declaration for which the host returned a present decorator array, and exactly
that array — a present-but-empty array is kept, not discarded. -/
theorem absent_decorators_discarded (checker : Checker) (host : Host)
    (entryPoint : SourceFile) (files : List ParsedFile)
    (h : parseFile checker host entryPoint = .ok files) :
    ∀ pf ∈ files, ∀ pc ∈ pf.decoratedClasses,
      host.getDecoratorsOfDeclaration (some pc.declaration)
        = some pc.decorators := by
  obtain ⟨cs, hcs, rfl⟩ :=
    (parseFile_ok_iff checker host entryPoint files).mp h
  intro pf hpf pc hpc
  have hmem : pc ∈ cs := by
    rw [(groupByFile_spec cs).2 pf hpf] at hpc
    exact List.mem_of_mem_filter hpc
  unfold discoveredClasses at hcs
  split at hcs
  · obtain rfl : ([] : List ParsedClass) = cs := Except.ok.inj hcs
    simp at hmem
  · obtain ⟨mapped, hmapped, rfl⟩ := (except_map_eq_ok _ _ _).mp hcs
    obtain ⟨opc, hopc, heq⟩ := List.mem_filterMap.mp hmem
    exact mapDecoratedClasses_ok_mem host _ mapped hmapped pc (heq ▸ hopc)

/-- C1 witness: a host reporting one decorator for `declA` and absence for
everything else — the surviving class carries exactly the host's array. -/
theorem absent_decorators_discarded_witness :
    hostOne.getDecoratorsOfDeclaration
        (some (ParsedClass.mk "A" declA [⟨7⟩]).declaration)
      = some (ParsedClass.mk "A" declA [⟨7⟩]).decorators :=
  absent_decorators_discarded checkerA hostOne fileEntry
    [⟨fileA, [⟨"A", declA, [⟨7⟩]⟩]⟩] rfl
    ⟨fileA, [⟨"A", declA, [⟨7⟩]⟩]⟩ (List.mem_singleton.mpr rfl)
    ⟨"A", declA, [⟨7⟩]⟩ (List.mem_singleton.mpr rfl)

/-- C4 counterexample: `parseFile` does NOT complete for every input. When an
exported class symbol's declaration is an unnamed class and the host reports
decorators for it, the non-null assertion `declaration.name!.text` (line 39)
dereferences an absent name and a `TypeError` crosses `parseFile`'s
boundary. -/
theorem parseFile_unnamed_class_raises :
    parseFile checkerNoName hostAll fileEntry = .error .typeError := rfl

/-- C4 (amended): `parseFile` completes and returns a sequence whenever every
exported class declaration for which the host reports decorators is present
and named; this covers unresolvable module symbols, non-class exports and
undecorated or malformed exports mapped to an absent host result. A decorated
export whose declaration is missing or unnamed instead raises a `TypeError`
via the `declaration.name!.text` non-null assertion. -/
theorem parseFile_no_raise_when_named (checker : Checker) (host : Host)
    (entryPoint : SourceFile)
    (h : ∀ moduleSymbol,
      checker.getSymbolAtLocation entryPoint = some moduleSymbol →
      ∀ od ∈ exportedClassDeclarations checker moduleSymbol,
        (host.getDecoratorsOfDeclaration od).isSome = true →
        ∃ d nm, od = some d ∧ d.name = some nm) :
    ∃ files, parseFile checker host entryPoint = .ok files := by
  rcases hms : checker.getSymbolAtLocation entryPoint with _ | ms
  · exact ⟨[], by
      simp [parseFile, discoveredClasses, hms, Except.map, groupByFile]⟩
  · obtain ⟨res, hres⟩ := mapDecoratedClasses_total host
      (exportedClassDeclarations checker ms) (h ms hms)
    exact ⟨groupByFile (res.filterMap id),
      by simp [parseFile, discoveredClasses, hms, hres, Except.map]⟩

/-- C4 witness: a module exporting one named decorated class parses without a
raised failure. -/
theorem parseFile_no_raise_when_named_witness :
    ∃ files, parseFile checkerA hostOne fileEntry = .ok files :=
  parseFile_no_raise_when_named checkerA hostOne fileEntry (by
    intro ms hms od hod _
    obtain rfl : moduleSym = ms := Option.some.inj hms
    rw [show exportedClassDeclarations checkerA moduleSym = [some declA]
      from rfl, List.mem_singleton] at hod
    subst hod
    exact ⟨declA, "A", rfl, rfl⟩)

/-- C6: an export flagged as an alias is resolved to its underlying aliased
symbol before classification and decorator lookup: replacing an alias export
by its aliased symbol in the module's export list leaves the entire result of
`parseFile` unchanged, so a re-export of a decorated class yields identical
decorator metadata to a direct export of that class. -/
theorem parseFile_alias_resolution (checker : Checker) (host : Host)
    (entryPoint : SourceFile) (pre post : List Symbol) (aliasSymbol : Symbol)
    (halias : SymbolFlags.Alias &&& aliasSymbol.flags ≠ 0)
    (htarget : SymbolFlags.Alias
      &&& (checker.getAliasedSymbol aliasSymbol).flags = 0) :
    parseFile
        { checker with getExportsOfModule :=
            fun _ => pre ++ aliasSymbol :: post } host entryPoint
      = parseFile
        { checker with getExportsOfModule :=
            fun _ => pre ++ checker.getAliasedSymbol aliasSymbol :: post }
        host entryPoint := by
  have hres : resolveExport checker aliasSymbol
      = resolveExport checker (checker.getAliasedSymbol aliasSymbol) := by
    rw [resolveExport, if_pos halias, resolveExport,
      if_neg (fun hc => hc htarget)]
  apply parseFile_congr
  · rfl
  · intro ms
    show ((((pre ++ aliasSymbol :: post).map
          (resolveExport checker)).filter
          (fun exportSymbol =>
            exportSymbol.flags &&& SymbolFlags.Class ≠ 0)).map
        (fun exportSymbol => exportSymbol.valueDeclaration))
      = ((((pre ++ checker.getAliasedSymbol aliasSymbol :: post).map
          (resolveExport checker)).filter
          (fun exportSymbol =>
            exportSymbol.flags &&& SymbolFlags.Class ≠ 0)).map
        (fun exportSymbol => exportSymbol.valueDeclaration))
    rw [List.map_append, List.map_append, List.map_cons, List.map_cons, hres]

/-- C6 witness: the alias `aliasSymA` resolves to the class symbol `classSymA`
and yields the same parse as exporting `classSymA` directly. -/
theorem parseFile_alias_resolution_witness :
    parseFile
        { checkerA with getExportsOfModule := fun _ => [] ++ aliasSymA :: [] }
        hostOne fileEntry
      = parseFile
        { checkerA with getExportsOfModule :=
            fun _ => [] ++ checkerA.getAliasedSymbol aliasSymA :: [] }
        hostOne fileEntry :=
  parseFile_alias_resolution checkerA hostOne fileEntry [] [] aliasSymA
    (by decide) (by decide)

/-- C7: every `ParsedFile` in the sequence returned by `parseFile` contains at
least one `ParsedClass` — a `ParsedFile` is created only on first encountering
a decorated class from its source file, never with zero decorated classes. -/
theorem parsedFile_nonempty (checker : Checker) (host : Host)
    (entryPoint : SourceFile) (files : List ParsedFile)
    (h : parseFile checker host entryPoint = .ok files) :
    ∀ pf ∈ files, pf.decoratedClasses ≠ [] := by
  obtain ⟨cs, _, rfl⟩ := (parseFile_ok_iff checker host entryPoint files).mp h
  exact foldl_addToGroup_ne_nil cs [] (by simp)

/-- C7 witness. -/
theorem parsedFile_nonempty_witness :
    (ParsedFile.mk fileA [⟨"A", declA, [⟨7⟩]⟩]).decoratedClasses ≠ [] :=
  parsedFile_nonempty checkerA hostOne fileEntry
    [⟨fileA, [⟨"A", declA, [⟨7⟩]⟩]⟩] rfl
    ⟨fileA, [⟨"A", declA, [⟨7⟩]⟩]⟩ (List.mem_singleton.mpr rfl)

/-- C8: the output of `parseFile` is fully ordered by discovery. Whenever the
discovery pipeline yields the decorated classes `cs` (in export-enumeration
order), `parseFile` returns exactly their grouping; the `ParsedFile` sequence
is keyed in first-seen order of the files of `cs`, and each `ParsedFile`'s
`decoratedClasses` is the discovery-ordered sublist of `cs` belonging to that
file. -/
theorem parseFile_discovery_order (checker : Checker) (host : Host)
    (entryPoint : SourceFile) (cs : List ParsedClass)
    (h : discoveredClasses checker host entryPoint = .ok cs) :
    parseFile checker host entryPoint = .ok (groupByFile cs)
    ∧ (groupByFile cs).map (fun pf => pf.sourceFile)
        = firstSeenOrder (cs.map (fun x => x.declaration.sourceFile))
    ∧ ∀ pf ∈ groupByFile cs, pf.decoratedClasses
        = cs.filter
            (fun x => decide (x.declaration.sourceFile = pf.sourceFile)) := by
  refine ⟨?_, (groupByFile_spec cs).1, (groupByFile_spec cs).2⟩
  rw [parseFile, h]
  rfl

/-- C8 witness. -/
theorem parseFile_discovery_order_witness :
    parseFile checkerA hostOne fileEntry
        = .ok (groupByFile [⟨"A", declA, [⟨7⟩]⟩])
    ∧ (groupByFile [⟨"A", declA, [⟨7⟩]⟩]).map (fun pf => pf.sourceFile)
        = firstSeenOrder
            (([⟨"A", declA, [⟨7⟩]⟩] : List ParsedClass).map
              (fun x => x.declaration.sourceFile)) :=
  ⟨(parseFile_discovery_order checkerA hostOne fileEntry
      [⟨"A", declA, [⟨7⟩]⟩] rfl).1,
   (parseFile_discovery_order checkerA hostOne fileEntry
      [⟨"A", declA, [⟨7⟩]⟩] rfl).2.1⟩

/-- C9: `parseFile` is deterministic over an immutable symbol-resolution
snapshot: two invocations with the same entry module, host and snapshot
produce structurally equal results. (In this embedding the snapshot is the
`Checker` value and `parseFile` is a pure function of it: the source's only
mutable state, the grouping `Map`, is function-local, so non-mutation of the
external tree and symbol table holds by construction.) -/
theorem parseFile_deterministic (checker : Checker) (host : Host)
    (entryPoint : SourceFile) (r1 r2 : Except JsError (List ParsedFile))
    (h1 : parseFile checker host entryPoint = r1)
    (h2 : parseFile checker host entryPoint = r2) :
    r1 = r2 := h1 ▸ h2

/-- C9 witness. -/
theorem parseFile_deterministic_witness :
    parseFile checkerA hostOne fileEntry = parseFile checkerA hostOne fileEntry :=
  parseFile_deterministic checkerA hostOne fileEntry _ _ rfl rfl

end Ngcc
